import Mathlib

/-!
Shallow embedding of the conversation-state engine of the aroxis repository
(src/arox/agent_patterns/state.py and src/arox/commands/init file), together
with proofs about its context-assembly algorithm, its context-file tracking,
and two of its command handlers.

Modelling conventions:
- pathlib paths are modelled as an absolute flag plus a component list
  (PyPath); Path.absolute() is modelled with an explicit current working
  directory taken from the Disk structure.
- The filesystem is a Disk structure: a read function (open, returning none
  where Python raises FileNotFoundError) and an existence test (Path.exists).
- Python dict-based messages become the Message structure; the
  local_metadata "type" entry becomes the optional tag field.
- The message_meta dict (flags only ever set to True) becomes a list of the
  flag names that are set.
- re.search from the Python standard library is outside the repository; it is
  modelled as an abstract predicate passed as a parameter (research).
- json.loads is likewise outside the repository and is passed as a parameter.
- Awaiting the result of a synchronous call (a Python TypeError) and calling
  a method on None (an AttributeError) are modelled by the Except PyErr
  result type of the command handlers.
-/

namespace Aroxis

/-- Model of a pathlib path: whether it is absolute, and its components. -/
structure PyPath where
  absolute : Bool
  comps : List String
deriving DecidableEq, Repr

/-- Model of the / operator on paths: joining with an absolute right side
yields the right side, as in pathlib. -/
def PyPath.join (a b : PyPath) : PyPath :=
  if b.absolute then b else PyPath.mk a.absolute (a.comps ++ b.comps)

/-- Model of Path.is_relative_to: purely lexical, no normalization. -/
def PyPath.isRelativeTo (p w : PyPath) : Bool :=
  p.absolute == w.absolute && w.comps.isPrefixOf p.comps

/-- Model of Path.relative_to on a path for which isRelativeTo holds. -/
def PyPath.relativeTo (p w : PyPath) : PyPath :=
  PyPath.mk false (p.comps.drop w.comps.length)

/-- Model of Path.absolute(): prepend the current working directory when the
path is relative; no normalization, as in pathlib. -/
def PyPath.pyAbsolute (cwd p : PyPath) : PyPath :=
  if p.absolute then p else PyPath.mk true (cwd.comps ++ p.comps)

/-- Model of str(Path ...) for rendering a path into message text. -/
def PyPath.render (p : PyPath) : String :=
  if p.comps.isEmpty then (if p.absolute then "/" else ".")
  else (if p.absolute then "/" else "") ++ String.intercalate "/" p.comps

/-- Splitting of a character list on every occurrence of a separator,
keeping empty chunks, as Python str.split does with an explicit separator. -/
def splitCharList (sep : Char) : List Char → List (List Char)
  | [] => [[]]
  | c :: rest =>
    if c = sep then [] :: splitCharList sep rest
    else
      match splitCharList sep rest with
      | [] => [[c]]
      | t :: ts => (c :: t) :: ts

/-- Model of Python str.split with an explicit single-character separator. -/
def pySplitChar (sep : Char) (s : String) : List String :=
  (splitCharList sep s.toList).map (fun cs => String.mk cs)

/-- Model of the Path constructor applied to a string: split on slashes,
dropping empty and single-dot components as pathlib does. -/
def parsePath (s : String) : PyPath :=
  PyPath.mk (s.toList.head? == some (Char.ofNat 47))
    ((pySplitChar (Char.ofNat 47) s).filter (fun c => c != "" && c != "."))

/-- Model of the filesystem and process state visible to the code: the
current working directory (used by Path.absolute), the content returned by
open/read (none where Python raises FileNotFoundError), and Path.exists. -/
structure Disk where
  cwd : PyPath
  readF : PyPath → Option String
  existsF : PyPath → Bool

/-- Embedding of the ChatFiles class of src/arox/agent_patterns/state.py:
the committed list (chat_files), the pending list (pending_files), the
optional candidate generator (modelled by the list of candidates it yields),
and the workspace root the instance is bound to. -/
structure ChatFiles where
  chat_files : List PyPath
  pending_files : List PyPath
  candidate_generator : Option (List String)
  workspace : PyPath
deriving DecidableEq

/-- Embedding of the ChatFiles constructor. -/
def ChatFiles.init (workspace : PyPath) : ChatFiles :=
  ChatFiles.mk [] [] none workspace

/-- Body of ChatFiles.normalize for a fixed workspace root. -/
def normalizeAt (ws cwd path : PyPath) : PyPath :=
  let p := if !path.absolute then PyPath.pyAbsolute cwd (ws.join path) else path
  if p.isRelativeTo ws then p.relativeTo ws else p

/-- Embedding of ChatFiles.normalize (state.py lines 21 to 29): reads the
workspace the instance is bound to. -/
def ChatFiles.normalize (cf : ChatFiles) (cwd : PyPath) (path : PyPath) : PyPath :=
  normalizeAt cf.workspace cwd path

/-- Embedding of ChatFiles.add (state.py lines 43 to 47). -/
def ChatFiles.add (cf : ChatFiles) (f : PyPath) : ChatFiles :=
  let cf1 := if f ∈ cf.chat_files then cf
    else { cf with chat_files := cf.chat_files ++ [f] }
  if f ∈ cf1.pending_files then cf1
  else { cf1 with pending_files := cf1.pending_files ++ [f] }

/-- Result record returned by add_by_names: the succeed and not_exist lists
hold the caller-supplied paths in input order. -/
structure AddResult where
  succeed : List PyPath
  not_exist : List PyPath
deriving DecidableEq

/-- Body of the for loop of ChatFiles.add_by_names. -/
def addByNamesStep (d : Disk) (acc : AddResult × ChatFiles) (path : PyPath) :
    AddResult × ChatFiles :=
  let p := acc.2.normalize d.cwd path
  if d.existsF p then
    (AddResult.mk (acc.1.succeed ++ [path]) acc.1.not_exist, acc.2.add p)
  else
    (AddResult.mk acc.1.succeed (acc.1.not_exist ++ [path]), acc.2)

/-- Embedding of ChatFiles.add_by_names (state.py lines 31 to 41): the
Python for loop is a left fold over the input paths. -/
def ChatFiles.add_by_names (cf : ChatFiles) (d : Disk) (paths : List PyPath) :
    AddResult × ChatFiles :=
  paths.foldl (addByNamesStep d) (AddResult.mk [] [], cf)

/-- Embedding of ChatFiles.remove (state.py lines 49 to 56); Python
list.remove deletes the first occurrence, modelled by List.erase. The print
on the absent branch is IO only and carries no state. -/
def ChatFiles.remove (cf : ChatFiles) (f : PyPath) : ChatFiles :=
  let cf1 := if f ∈ cf.chat_files then { cf with chat_files := cf.chat_files.erase f } else cf
  if f ∈ cf1.pending_files then { cf1 with pending_files := cf1.pending_files.erase f }
  else cf1

/-- Embedding of ChatFiles.clear (state.py lines 58 to 60). -/
def ChatFiles.clear (cf : ChatFiles) : ChatFiles :=
  { cf with chat_files := [], pending_files := [] }

/-- Embedding of ChatFiles.have_pending (state.py lines 62 to 63). -/
def ChatFiles.have_pending (cf : ChatFiles) : Bool :=
  !cf.pending_files.isEmpty

/-- Embedding of ChatFiles.clear_pending (state.py lines 65 to 66). -/
def ChatFiles.clear_pending (cf : ChatFiles) : ChatFiles :=
  { cf with pending_files := [] }

/-- Embedding of ChatFiles.list (state.py lines 68 to 69). -/
def ChatFiles.list (cf : ChatFiles) : List PyPath :=
  cf.chat_files

/-- Embedding of ChatFiles.set_candidate_generator (state.py lines 71 to 72). -/
def ChatFiles.set_candidate_generator (cf : ChatFiles) (cg : List String) : ChatFiles :=
  { cf with candidate_generator := some cg }

/-- Embedding of ChatFiles.candidates (state.py lines 74 to 77). -/
def ChatFiles.candidates (cf : ChatFiles) : List String :=
  match cf.candidate_generator with
  | none => []
  | some l => l

/-- Text block contributed by one file in read_files, from the format string
at state.py lines 93 to 95 (without the previous accumulator). -/
def fileBlock (f : PyPath) (content : String) : String :=
  "\n====FILE: " ++ f.render ++ "====\n" ++ content ++ "\n\n"

/-- Path actually opened for a chat file in read_files (state.py line 87). -/
def resolveRead (ws f : PyPath) : PyPath :=
  if f.absolute then f else ws.join f

/-- Embedding of the for loop of ChatFiles.read_files (state.py lines 86 to
98), accumulating the concatenated text (new blocks prepended) and the list
of successfully read paths. -/
def readFilesLoop (d : Disk) (ws : PyPath) :
    List PyPath → String × List PyPath → String × List PyPath
  | [], acc => acc
  | fname :: rest, acc =>
    match d.readF (resolveRead ws fname) with
    | some content =>
      readFilesLoop d ws rest (fileBlock fname content ++ acc.1, acc.2 ++ [fname])
    | none => readFilesLoop d ws rest acc

/-- Embedding of ChatFiles.read_files (state.py lines 79 to 101). -/
def ChatFiles.read_files (cf : ChatFiles) (d : Disk) : String × List PyPath × ChatFiles :=
  if cf.chat_files.isEmpty then ("", [], cf)
  else
    let r := readFilesLoop d cf.workspace cf.chat_files ("", [])
    (r.1, r.2, cf.clear_pending)

/-- Model of a transcript message: the role and content fields of the Python
dict, with the local_metadata type entry as the optional tag. -/
structure Message where
  role : String
  content : String
  tag : Option String
deriving DecidableEq, Repr

/-- Modelled from the spec: the helper arox.utils.xml_wrap is code of this
repository that is not under src/. Per the spec, injected text is opaque and
an empty item content silently produces no message rather than an empty
placeholder, so wrapping an item with empty content yields the empty string
while nonempty content is wrapped in an XML style tag block around it. -/
def xml_wrap (items : List (String × String)) : String :=
  String.join (items.map (fun it =>
    if it.2 = "" then ""
    else "<" ++ it.1 ++ ">\n" ++ it.2 ++ "\n</" ++ it.1 ++ ">\n"))

/-- Configuration of one model-specific prompt entry (llm_base.py lines 104
to 114): the prompt text and the regex pattern string. -/
structure ModelPrompt where
  prompt : String
  pattern : String
deriving DecidableEq

/-- Slice of the agent object that SimpleState reads during assembly: the
declared model prompt pairs and the active model identifier. -/
structure AgentCfg where
  model_prompt : List ModelPrompt
  model_ref : String
deriving DecidableEq

/-- Embedding of the SimpleState instance fields (state.py lines 104 to
116): the agent reference is an opaque token, system_prompt and workspace
are snapshots taken from the agent, chat_files is the owned ChatFiles
instance, and messages plus message_meta form the mutable transcript state.
The use_flexible_toolcall machinery lives in the external kissllm package
and is outside the embedding. -/
structure SimpleState where
  agentId : Nat
  system_prompt : String
  workspace : PyPath
  chat_files : ChatFiles
  messages : List Message
  message_meta : List String
deriving DecidableEq

/-- Embedding of SimpleState.reset (state.py lines 181 to 184). -/
def SimpleState.reset (s : SimpleState) : SimpleState :=
  { s with messages := [], message_meta := [], chat_files := s.chat_files.clear }

/-- Embedding of SimpleState._get_message_items (state.py lines 121 to 133):
returns the candidate items together with the updated state (the system flag
may be set and read_files mutates chat_files). -/
def SimpleState.get_message_items (s : SimpleState) (d : Disk) (user_input : String) :
    List (String × String) × SimpleState :=
  let r1 : List (String × String) × SimpleState :=
    if "system" ∉ s.message_meta ∧ s.system_prompt ≠ "" then
      ([("system", s.system_prompt)], { s with message_meta := s.message_meta ++ ["system"] })
    else ([], s)
  let r2 : List (String × String) × SimpleState :=
    if r1.2.chat_files.have_pending ∨ user_input ≠ "" then
      let rf := r1.2.chat_files.read_files d
      (r1.1 ++ [("files", rf.1)], { r1.2 with chat_files := rf.2.2 })
    else r1
  if user_input ≠ "" then (r2.1 ++ [("user_instruction", user_input)], r2.2) else r2

/-- Embedding of SimpleState._append_with_typ_meta (state.py lines 135 to
148): remove every message whose metadata type is typ, then append the new
content when it is nonempty. -/
def append_with_typ_meta (messages : List Message) (typ : String) (content : String) :
    List Message :=
  let kept := messages.filter (fun m => m.tag != some typ)
  if content ≠ "" then kept ++ [Message.mk "user" content (some typ)] else kept

/-- Body of the item loop of SimpleState._assemble_prompt (state.py lines
157 to 166). -/
def injectItem (msgs : List Message) (item : String × String) : List Message :=
  if item.1 = "system" then msgs ++ [Message.mk "system" item.2 none]
  else
    let content := xml_wrap [item]
    if item.1 = "files" then append_with_typ_meta msgs "files" content
    else if content ≠ "" then msgs ++ [Message.mk "user" content none]
    else msgs

/-- Embedding of SimpleState._assemble_prompt (state.py lines 153 to 179):
research models re.search on a pattern and the model identifier; the
trailing inject_tools_into_messages call lives in the external kissllm
package and is outside the embedding. -/
def SimpleState.assemble_prompt (s : SimpleState) (research : String → String → Bool)
    (agent : AgentCfg) (d : Disk) (user_input : String) : SimpleState × Bool :=
  let r := s.get_message_items d user_input
  let has_new := !r.1.isEmpty
  let msgs1 := r.1.foldl injectItem r.2.messages
  let msgs2 :=
    match agent.model_prompt.find? (fun mp => research mp.pattern agent.model_ref) with
    | some mp => append_with_typ_meta msgs1 "model_prompt" mp.prompt
    | none => msgs1
  ({ r.2 with messages := msgs2 }, has_new)

/-- Embedding of SimpleState.add_user_input (state.py lines 150 to 151). -/
def SimpleState.add_user_input (s : SimpleState) (research : String → String → Bool)
    (agent : AgentCfg) (d : Disk) (user_input : String) : SimpleState × Bool :=
  s.assemble_prompt research agent d user_input

/-- Embedding of SimpleState.handle_response (state.py lines 197 to 201):
continu is the value returned by the external superclass handler; the method
re-assembles with empty user input and conjoins the two flags. -/
def SimpleState.handle_response (s : SimpleState) (research : String → String → Bool)
    (agent : AgentCfg) (d : Disk) (continu : Bool) : SimpleState × Bool :=
  let r := s.assemble_prompt research agent d ""
  (r.1, r.2 && continu)

/-- One assembly step descriptor: the agent configuration current at that
turn (the model reference may have been switched between turns), the disk
state, and the user input. -/
structure TurnIn where
  agent : AgentCfg
  disk : Disk
  input : String

/-- Sequence of assembly calls, threading the state. -/
def assembleSeq (research : String → String → Bool) (steps : List TurnIn)
    (s : SimpleState) : SimpleState :=
  steps.foldl (fun st step => (st.assemble_prompt research step.agent step.disk step.input).1) s

/-- Python runtime faults that the command handlers can raise: awaiting a
value that is not awaitable raises TypeError, and calling a method on None
raises AttributeError. -/
inductive PyErr where
  | typeError : String → PyErr
  | attributeError : String → PyErr
deriving DecidableEq

/-- Embedding of FileCommand.execute of src/arox/commands (lines 80 to 93).
The arg parameter is None when the command line had no argument text, as
produced by parse_cmdline. On the add branch the handler reports each
not-found path over the IO channel (returned here as the output list). On
the drop branch the source awaits the value returned by the synchronous
ChatFiles.remove call: the call itself runs first (so the first path is
removed), after which awaiting None raises TypeError. With arg equal to
None, arg.split raises AttributeError before anything else. -/
def fileCommandExecute (cf : ChatFiles) (d : Disk) (name : String) (arg : Option String) :
    Except PyErr (ChatFiles × List String) :=
  match arg with
  | none => Except.error (PyErr.attributeError "NoneType object has no attribute split")
  | some a =>
    let files := pySplitChar (Char.ofNat 32) a
    if files.isEmpty then Except.ok (cf, ["Please specify files."])
    else if name = "add" then
      let r := cf.add_by_names d (files.map parsePath)
      Except.ok (r.2, r.1.not_exist.map (fun f => f.render ++ " does not exist, ignoring."))
    else
      match files with
      | [] => Except.ok (cf, [])
      | f :: _ =>
        let p := cf.normalize d.cwd (parsePath f)
        let _ := cf.remove p
        Except.error (PyErr.typeError "object NoneType can not be used in await expression")

/-- Model of a JSON value as produced by json.loads. -/
inductive Json where
  | null : Json
  | boolVal : Bool → Json
  | num : Int → Json
  | str : String → Json
  | arr : List Json → Json
  | obj : List (String × Json) → Json

/-- Test for the Python isinstance(args, dict) check. -/
def Json.isObj : Json → Bool
  | Json.obj _ => true
  | _ => false

/-- Synthetic tool call record built by InvokeToolCommand (commands lines
197 to 201): the placeholder identifier, the literal type field, the
function name, and the parsed argument object (the source serializes it
right back with json.dumps before forwarding). -/
structure ToolCall where
  id : String
  callType : String
  fname : String
  args : Json

/-- Outcome of InvokeToolCommand.execute up to the hand-off to the external
tool registry: which branch was taken. The usage, invalidJson and notObject
branches write an error message and do not invoke; the invoked branch
forwards the synthetic tool call to the external registry, whose own
failures are caught and surfaced by the surrounding try blocks. -/
inductive InvokeResult where
  | usage : InvokeResult
  | invalidJson : InvokeResult
  | notObject : InvokeResult
  | invoked : ToolCall → InvokeResult

/-- Single character test matching the Python str.split whitespace class for
the inputs that occur here. -/
def pyIsSpace (c : Char) : Bool :=
  c = ' ' || c = '\t' || c = '\n' || c = '\r'

/-- Model of str.split(maxsplit=1) with the default separator: leading
whitespace is skipped, the first token runs to the next whitespace, and the
remainder (with the separator run consumed) is the second element when it is
nonempty. -/
def pySplitWs1 (s : String) : List String :=
  let t := s.toList.dropWhile pyIsSpace
  if t.isEmpty then []
  else
    let tok := t.takeWhile (fun c => !pyIsSpace c)
    let rest := (t.dropWhile (fun c => !pyIsSpace c)).dropWhile pyIsSpace
    if rest.isEmpty then [String.mk tok] else [String.mk tok, String.mk rest]

/-- Embedding of InvokeToolCommand.execute of src/arox/commands (lines 171
to 225) up to the hand-off to the external tool registry. jsonLoads models
json.loads from the Python standard library (none where it raises
JSONDecodeError). The args_str binding reproduces the source line
verbatim: parts[0] when len(parts) is greater than 1, else the empty object
literal. As in fileCommandExecute, a missing argument makes arg.split raise
AttributeError. -/
def invokeToolExecute (jsonLoads : String → Option Json) (arg : Option String) :
    Except PyErr InvokeResult :=
  match arg with
  | none => Except.error (PyErr.attributeError "NoneType object has no attribute split")
  | some a =>
    match pySplitWs1 a with
    | [] => Except.ok InvokeResult.usage
    | p0 :: rest =>
      let function_name := p0
      let args_str := if !rest.isEmpty then p0 else "\x7b\x7d"
      match jsonLoads args_str with
      | none => Except.ok InvokeResult.invalidJson
      | some j =>
        if !j.isObj then Except.ok InvokeResult.notObject
        else Except.ok (InvokeResult.invoked
          (ToolCall.mk ("cmd_" ++ function_name) "function" function_name j))

/-! Helper definitions and lemmas used by the claim theorems. -/

/-- Messages of the transcript carrying a given tag. -/
def msgsTagged (t : String) (msgs : List Message) : List Message :=
  msgs.filter (fun m => m.tag == some t)

/-- Number of live messages carrying a given tag. -/
def countTag (t : String) (msgs : List Message) : Nat :=
  (msgsTagged t msgs).length

/-- Messages of the transcript carrying a given role. -/
def filterRole (r : String) (msgs : List Message) : List Message :=
  msgs.filter (fun m => m.role == r)

theorem msgsTagged_append (t : String) (l1 l2 : List Message) :
    msgsTagged t (l1 ++ l2) = msgsTagged t l1 ++ msgsTagged t l2 := by
  simp [msgsTagged, List.filter_append]

theorem msgsTagged_awtm_self (msgs : List Message) (typ content : String) :
    msgsTagged typ (append_with_typ_meta msgs typ content)
      = if content ≠ "" then [Message.mk "user" content (some typ)] else [] := by
  unfold append_with_typ_meta
  have hkept : msgsTagged typ (msgs.filter (fun m => m.tag != some typ)) = [] := by
    unfold msgsTagged
    rw [List.filter_filter]
    have : ∀ m : Message, ((m.tag == some typ) && (m.tag != some typ)) = false := by
      intro m; cases h : (m.tag == some typ) <;> simp [bne, h]
    simp only [this, List.filter_false]
  split
  · rw [msgsTagged_append, hkept]
    simp [msgsTagged]
  · exact hkept

theorem msgsTagged_awtm_other (msgs : List Message) (t typ content : String) (h : t ≠ typ) :
    msgsTagged t (append_with_typ_meta msgs typ content)
      = msgsTagged t (msgs.filter (fun m => m.tag != some typ)) := by
  unfold append_with_typ_meta
  split
  · rw [msgsTagged_append]
    have : msgsTagged t [Message.mk "user" content (some typ)] = [] := by
      simp [msgsTagged, Ne.symm h]
    rw [this, List.append_nil]
  · rfl

theorem countTag_awtm_le (msgs : List Message) (t typ content : String) :
    countTag t (append_with_typ_meta msgs typ content) ≤ max 1 (countTag t msgs) := by
  by_cases h : t = typ
  · subst h
    unfold countTag
    rw [msgsTagged_awtm_self]
    split <;> simp
  · unfold countTag
    rw [msgsTagged_awtm_other msgs t typ content h]
    have hsub : List.Sublist (msgs.filter (fun m => m.tag != some typ)) msgs :=
      List.filter_sublist msgs
    have hs2 : List.Sublist (msgsTagged t (msgs.filter (fun m => m.tag != some typ)))
        (msgsTagged t msgs) := List.Sublist.filter _ hsub
    exact le_trans hs2.length_le (le_max_right 1 _)

theorem msgsTagged_append_untagged (t : String) (msgs : List Message) (r c : String) :
    msgsTagged t (msgs ++ [Message.mk r c none]) = msgsTagged t msgs := by
  rw [msgsTagged_append]
  simp [msgsTagged]

theorem countTag_injectItem_le (msgs : List Message) (it : String × String) (t : String) :
    countTag t (injectItem msgs it) ≤ max 1 (countTag t msgs) := by
  simp only [injectItem]
  split
  · unfold countTag
    rw [msgsTagged_append_untagged]
    exact le_max_right 1 _
  · split
    · exact countTag_awtm_le msgs t "files" _
    · split
      · unfold countTag
        rw [msgsTagged_append_untagged]
        exact le_max_right 1 _
      · exact le_max_right 1 _

theorem countTag_foldl_injectItem_le (items : List (String × String))
    (msgs : List Message) (t : String) :
    countTag t (items.foldl injectItem msgs) ≤ max 1 (countTag t msgs) := by
  induction items generalizing msgs with
  | nil => exact le_max_right 1 _
  | cons it rest ih =>
    calc countTag t ((it :: rest).foldl injectItem msgs)
        = countTag t (rest.foldl injectItem (injectItem msgs it)) := rfl
      _ ≤ max 1 (countTag t (injectItem msgs it)) := ih (injectItem msgs it)
      _ ≤ max 1 (max 1 (countTag t msgs)) := by
          exact max_le_max_left 1 (countTag_injectItem_le msgs it t)
      _ = max 1 (countTag t msgs) := by rw [← max_assoc, max_self]

theorem gmi_messages (s : SimpleState) (d : Disk) (ui : String) :
    ((s.get_message_items d ui).2).messages = s.messages := by
  simp only [SimpleState.get_message_items]
  split <;> split <;> split <;> rfl

theorem gmi_system_prompt (s : SimpleState) (d : Disk) (ui : String) :
    ((s.get_message_items d ui).2).system_prompt = s.system_prompt := by
  simp only [SimpleState.get_message_items]
  split <;> split <;> split <;> rfl

theorem gmi_agentId (s : SimpleState) (d : Disk) (ui : String) :
    ((s.get_message_items d ui).2).agentId = s.agentId := by
  simp only [SimpleState.get_message_items]
  split <;> split <;> split <;> rfl

theorem gmi_meta_mono (s : SimpleState) (d : Disk) (ui : String) (x : String)
    (hx : x ∈ s.message_meta) : x ∈ ((s.get_message_items d ui).2).message_meta := by
  simp only [SimpleState.get_message_items]
  split <;> split <;> split <;> simp_all [List.mem_append]

theorem gmi_items_eq (s : SimpleState) (d : Disk) (ui : String) :
    (s.get_message_items d ui).1 =
      (if "system" ∉ s.message_meta ∧ s.system_prompt ≠ ""
        then [("system", s.system_prompt)] else [])
      ++ (if s.chat_files.have_pending ∨ ui ≠ ""
        then [("files", (s.chat_files.read_files d).1)] else [])
      ++ (if ui ≠ "" then [("user_instruction", ui)] else []) := by
  simp only [SimpleState.get_message_items]
  by_cases h1 : "system" ∉ s.message_meta ∧ s.system_prompt ≠ "" <;>
    by_cases hp : s.chat_files.have_pending = true <;>
    by_cases h3 : ui ≠ "" <;>
    simp [h1, hp, h3]

theorem gmi_meta_eq (s : SimpleState) (d : Disk) (ui : String) :
    ((s.get_message_items d ui).2).message_meta =
      if "system" ∉ s.message_meta ∧ s.system_prompt ≠ ""
        then s.message_meta ++ ["system"] else s.message_meta := by
  simp only [SimpleState.get_message_items]
  by_cases h1 : "system" ∉ s.message_meta ∧ s.system_prompt ≠ "" <;>
    by_cases hp : s.chat_files.have_pending = true <;>
    by_cases h3 : ui ≠ "" <;>
    simp [h1, hp, h3]

theorem gmi_chat_files_eq (s : SimpleState) (d : Disk) (ui : String) :
    ((s.get_message_items d ui).2).chat_files =
      if s.chat_files.have_pending ∨ ui ≠ ""
        then ((s.chat_files.read_files d).2.2) else s.chat_files := by
  simp only [SimpleState.get_message_items]
  by_cases h1 : "system" ∉ s.message_meta ∧ s.system_prompt ≠ "" <;>
    by_cases hp : s.chat_files.have_pending = true <;>
    by_cases h3 : ui ≠ "" <;>
    simp [h1, hp, h3]

theorem gmi_items_no_system (s : SimpleState) (d : Disk) (ui : String)
    (h : "system" ∈ s.message_meta) :
    ∀ it ∈ (s.get_message_items d ui).1, it.1 ≠ "system" := by
  intro it hit
  rw [gmi_items_eq] at hit
  have hns : ¬ ("system" ∉ s.message_meta ∧ s.system_prompt ≠ "") := fun hc => hc.1 h
  rw [if_neg hns, List.nil_append] at hit
  rcases List.mem_append.mp hit with hit | hit <;> split at hit <;>
    simp_all

theorem gmi_items_first_system (s : SimpleState) (d : Disk) (ui : String)
    (h1 : "system" ∉ s.message_meta) (h2 : s.system_prompt ≠ "") :
    ∃ rest, (s.get_message_items d ui).1 = ("system", s.system_prompt) :: rest
      ∧ (∀ it ∈ rest, it.1 ≠ "system")
      ∧ "system" ∈ ((s.get_message_items d ui).2).message_meta := by
  refine ⟨(if s.chat_files.have_pending ∨ ui ≠ ""
      then [("files", (s.chat_files.read_files d).1)] else [])
    ++ (if ui ≠ "" then [("user_instruction", ui)] else []), ?_, ?_, ?_⟩
  · rw [gmi_items_eq,
      if_pos (show ("system" ∉ s.message_meta ∧ s.system_prompt ≠ "") from ⟨h1, h2⟩)]
    simp
  · intro it hit
    rcases List.mem_append.mp hit with hit | hit <;> split at hit <;> simp_all
  · rw [gmi_meta_eq,
      if_pos (show ("system" ∉ s.message_meta ∧ s.system_prompt ≠ "") from ⟨h1, h2⟩)]
    simp

theorem assemble_fst_messages (s : SimpleState) (research : String → String → Bool)
    (agent : AgentCfg) (d : Disk) (ui : String) :
    ((s.assemble_prompt research agent d ui).1).messages =
      (match agent.model_prompt.find? (fun mp => research mp.pattern agent.model_ref) with
       | some mp =>
          append_with_typ_meta ((s.get_message_items d ui).1.foldl injectItem s.messages)
            "model_prompt" mp.prompt
       | none => (s.get_message_items d ui).1.foldl injectItem s.messages) := by
  simp only [SimpleState.assemble_prompt]
  rw [gmi_messages]

theorem assemble_fst_meta (s : SimpleState) (research : String → String → Bool)
    (agent : AgentCfg) (d : Disk) (ui : String) :
    ((s.assemble_prompt research agent d ui).1).message_meta =
      ((s.get_message_items d ui).2).message_meta := rfl

theorem assemble_fst_system_prompt (s : SimpleState) (research : String → String → Bool)
    (agent : AgentCfg) (d : Disk) (ui : String) :
    ((s.assemble_prompt research agent d ui).1).system_prompt = s.system_prompt := by
  simp only [SimpleState.assemble_prompt]
  exact gmi_system_prompt s d ui

theorem assemble_snd (s : SimpleState) (research : String → String → Bool)
    (agent : AgentCfg) (d : Disk) (ui : String) :
    (s.assemble_prompt research agent d ui).2 = !(s.get_message_items d ui).1.isEmpty := rfl

theorem countTag_assemble_le (s : SimpleState) (research : String → String → Bool)
    (agent : AgentCfg) (d : Disk) (ui : String) (t : String) :
    countTag t ((s.assemble_prompt research agent d ui).1).messages
      ≤ max 1 (countTag t s.messages) := by
  rw [assemble_fst_messages]
  split
  · calc countTag t (append_with_typ_meta
          ((s.get_message_items d ui).1.foldl injectItem s.messages) "model_prompt" _)
        ≤ max 1 (countTag t ((s.get_message_items d ui).1.foldl injectItem s.messages)) :=
          countTag_awtm_le _ t "model_prompt" _
      _ ≤ max 1 (max 1 (countTag t s.messages)) :=
          max_le_max_left 1 (countTag_foldl_injectItem_le _ _ t)
      _ = max 1 (countTag t s.messages) := by rw [← max_assoc, max_self]
  · exact countTag_foldl_injectItem_le _ _ t

theorem countTag_assembleSeq_le (research : String → String → Bool) (steps : List TurnIn)
    (s : SimpleState) (t : String) (h : countTag t s.messages ≤ 1) :
    countTag t (assembleSeq research steps s).messages ≤ 1 := by
  induction steps generalizing s with
  | nil => exact h
  | cons step rest ih =>
    exact ih ((s.assemble_prompt research step.agent step.disk step.input).1)
      (by have := countTag_assemble_le s research step.agent step.disk step.input t; omega)

/-- Transcript property: every system-role message is untagged. This holds
in every state reachable from reset, because the assembly loop appends the
system prompt without local metadata and every tagged message is appended
with the user role. -/
def sysTagNone (msgs : List Message) : Prop :=
  ∀ m ∈ msgs, m.role = "system" → m.tag = none

theorem filterRole_append (r : String) (l1 l2 : List Message) :
    filterRole r (l1 ++ l2) = filterRole r l1 ++ filterRole r l2 := by
  simp [filterRole, List.filter_append]

theorem sysTagNone_of_sub (msgs msgs' : List Message) (hsub : ∀ m ∈ msgs', m ∈ msgs)
    (h : sysTagNone msgs) : sysTagNone msgs' :=
  fun m hm => h m (hsub m hm)

theorem filterRole_system_tagfilter (msgs : List Message) (typ : String)
    (h : sysTagNone msgs) :
    filterRole "system" (msgs.filter (fun m => m.tag != some typ))
      = filterRole "system" msgs := by
  induction msgs with
  | nil => rfl
  | cons m rest ih =>
    have hrest : sysTagNone rest := fun x hx => h x (List.mem_cons_of_mem m hx)
    by_cases hr : m.role = "system"
    · have htag : m.tag = none := h m (List.mem_cons_self m rest) hr
      simp [filterRole, List.filter_cons, htag, hr] at ih ⊢
      exact ih hrest
    · by_cases ht : (m.tag != some typ) = true
      · simp [filterRole, List.filter_cons, hr, ht] at ih ⊢
        exact ih hrest
      · simp [filterRole, List.filter_cons, hr, ht] at ih ⊢
        exact ih hrest

theorem sysTagNone_awtm (msgs : List Message) (typ c : String) (h : sysTagNone msgs) :
    sysTagNone (append_with_typ_meta msgs typ c) := by
  unfold append_with_typ_meta
  split
  · intro m hm hr
    rcases List.mem_append.mp hm with hm | hm
    · exact h m (List.mem_of_mem_filter hm) hr
    · simp only [List.mem_singleton] at hm
      subst hm
      simp at hr
  · exact sysTagNone_of_sub msgs _ (fun m hm => List.mem_of_mem_filter hm) h

theorem filterRole_system_awtm (msgs : List Message) (typ c : String) (h : sysTagNone msgs) :
    filterRole "system" (append_with_typ_meta msgs typ c) = filterRole "system" msgs := by
  unfold append_with_typ_meta
  split
  · rw [filterRole_append, filterRole_system_tagfilter msgs typ h]
    simp [filterRole]
  · exact filterRole_system_tagfilter msgs typ h

theorem injectItem_nonsystem (msgs : List Message) (it : String × String)
    (hit : it.1 ≠ "system") (h : sysTagNone msgs) :
    filterRole "system" (injectItem msgs it) = filterRole "system" msgs
      ∧ sysTagNone (injectItem msgs it) := by
  simp only [injectItem, if_neg hit]
  split
  · exact ⟨filterRole_system_awtm msgs "files" _ h, sysTagNone_awtm msgs "files" _ h⟩
  · split
    · constructor
      · rw [filterRole_append]
        simp [filterRole]
      · intro m hm hr
        rcases List.mem_append.mp hm with hm | hm
        · exact h m hm hr
        · simp only [List.mem_singleton] at hm
          subst hm
          simp at hr
    · exact ⟨rfl, h⟩

theorem foldl_injectItem_nonsystem (items : List (String × String)) (msgs : List Message)
    (hits : ∀ it ∈ items, it.1 ≠ "system") (h : sysTagNone msgs) :
    filterRole "system" (items.foldl injectItem msgs) = filterRole "system" msgs
      ∧ sysTagNone (items.foldl injectItem msgs) := by
  induction items generalizing msgs with
  | nil => exact ⟨rfl, h⟩
  | cons it rest ih =>
    have hstep := injectItem_nonsystem msgs it (hits it (List.mem_cons_self it rest)) h
    have hrest := ih (injectItem msgs it)
      (fun x hx => hits x (List.mem_cons_of_mem it hx)) hstep.2
    exact ⟨by rw [List.foldl_cons, hrest.1, hstep.1], hrest.2⟩

/-- Invariant carried across assembly calls for the exactly-once system
prompt property. -/
def SysInv (sp : String) (s : SimpleState) : Prop :=
  "system" ∈ s.message_meta
    ∧ filterRole "system" s.messages = [Message.mk "system" sp none]
    ∧ sysTagNone s.messages
    ∧ s.system_prompt = sp

theorem sysInv_assemble (sp : String) (s : SimpleState) (research : String → String → Bool)
    (agent : AgentCfg) (d : Disk) (ui : String) (h : SysInv sp s) :
    SysInv sp (s.assemble_prompt research agent d ui).1 := by
  obtain ⟨hmeta, hfilter, htag, hsp⟩ := h
  have hno := gmi_items_no_system s d ui hmeta
  have hfold := foldl_injectItem_nonsystem (s.get_message_items d ui).1 s.messages hno htag
  refine ⟨?_, ?_, ?_, ?_⟩
  · rw [assemble_fst_meta]
    exact gmi_meta_mono s d ui "system" hmeta
  · rw [assemble_fst_messages]
    split
    · rw [filterRole_system_awtm _ "model_prompt" _ hfold.2, hfold.1, hfilter]
    · rw [hfold.1, hfilter]
  · rw [assemble_fst_messages]
    split
    · exact sysTagNone_awtm _ "model_prompt" _ hfold.2
    · exact hfold.2
  · rw [assemble_fst_system_prompt]
    exact hsp

theorem sysInv_first_assemble (sp : String) (s : SimpleState)
    (research : String → String → Bool) (agent : AgentCfg) (d : Disk) (ui : String)
    (hnm : "system" ∉ s.message_meta) (hmsgs : s.messages = [])
    (hsp : s.system_prompt = sp) (hne : sp ≠ "") :
    SysInv sp (s.assemble_prompt research agent d ui).1 := by
  obtain ⟨rest0, hitems, hrest0, hmeta⟩ :=
    gmi_items_first_system s d ui hnm (by rw [hsp]; exact hne)
  have hone : filterRole "system" [Message.mk "system" sp none]
      = [Message.mk "system" sp none] := by simp [filterRole]
  have htagone : sysTagNone [Message.mk "system" sp none] := by
    intro m hm hr
    simp only [List.mem_singleton] at hm
    subst hm
    rfl
  have hfold := foldl_injectItem_nonsystem rest0 [Message.mk "system" sp none] hrest0 htagone
  have hfoldall : filterRole "system" ((s.get_message_items d ui).1.foldl injectItem s.messages)
        = [Message.mk "system" sp none]
      ∧ sysTagNone ((s.get_message_items d ui).1.foldl injectItem s.messages) := by
    rw [hitems, hmsgs, List.foldl_cons]
    have hinj : injectItem [] ("system", s.system_prompt) = [Message.mk "system" sp none] := by
      simp [injectItem, hsp]
    rw [hinj]
    exact ⟨by rw [hfold.1, hone], hfold.2⟩
  refine ⟨?_, ?_, ?_, ?_⟩
  · rw [assemble_fst_meta]
    exact hmeta
  · rw [assemble_fst_messages]
    split
    · rw [filterRole_system_awtm _ "model_prompt" _ hfoldall.2, hfoldall.1]
    · exact hfoldall.1
  · rw [assemble_fst_messages]
    split
    · exact sysTagNone_awtm _ "model_prompt" _ hfoldall.2
    · exact hfoldall.2
  · rw [assemble_fst_system_prompt]
    exact hsp

theorem sysInv_assembleSeq (sp : String) (research : String → String → Bool)
    (steps : List TurnIn) (s : SimpleState) (h : SysInv sp s) :
    SysInv sp (assembleSeq research steps s) := by
  induction steps generalizing s with
  | nil => exact h
  | cons step rest ih =>
    exact ih ((s.assemble_prompt research step.agent step.disk step.input).1)
      (sysInv_assemble sp s research step.agent step.disk step.input h)

/-! Shared concrete fixtures used by witnesses and counterexamples. -/

/-- Example workspace root. -/
def exWs : PyPath := PyPath.mk true ["ws"]

/-- Example disk: only the relative path notes.txt exists, nothing is
readable. -/
def exDisk : Disk :=
  Disk.mk (PyPath.mk true []) (fun _ => none) (fun p => p == PyPath.mk false ["notes.txt"])

/-- Example instantiation of the abstract re.search parameter; it agrees
with re.search on the literal single-letter patterns used in the fixtures. -/
def exResearch : String → String → Bool :=
  fun pat s => pat.toList.isPrefixOf s.toList

/-- Example agent with no model prompts. -/
def exAgentNone : AgentCfg := AgentCfg.mk [] "m"

/-- Example agent with two model prompt pairs and active model A. -/
def exAgentA : AgentCfg :=
  AgentCfg.mk [ModelPrompt.mk "PA" "A", ModelPrompt.mk "PB" "B"] "A"

/-- Example agent with the same pairs and active model B. -/
def exAgentB : AgentCfg :=
  AgentCfg.mk [ModelPrompt.mk "PA" "A", ModelPrompt.mk "PB" "B"] "B"

/-- Example fresh state with system prompt SP. -/
def exState : SimpleState := SimpleState.mk 0 "SP" exWs (ChatFiles.init exWs) [] []

/-- C1. Replace-by-tag injection: _append_with_typ_meta removes every
message carrying the given tag, keeps the rest in order, and, when the
fresh content is nonempty, appends exactly one new message with that tag at
the end of the transcript, so that message is strictly later than every
message it replaced; when the fresh content is empty no tagged message
remains; and consequently, starting from a reset state, after any sequence
of assembly calls at most one message with each tag is live. -/
theorem replace_by_tag_injection :
    (∀ (msgs : List Message) (typ content : String), content ≠ "" →
      append_with_typ_meta msgs typ content
          = msgs.filter (fun m => m.tag != some typ)
            ++ [Message.mk "user" content (some typ)]
        ∧ msgsTagged typ (append_with_typ_meta msgs typ content)
          = [Message.mk "user" content (some typ)])
    ∧ (∀ (msgs : List Message) (typ : String),
      append_with_typ_meta msgs typ "" = msgs.filter (fun m => m.tag != some typ)
        ∧ msgsTagged typ (append_with_typ_meta msgs typ "") = [])
    ∧ (∀ (research : String → String → Bool) (steps : List TurnIn) (s : SimpleState)
        (t : String),
      countTag t (assembleSeq research steps s.reset).messages ≤ 1) := by
  refine ⟨?_, ?_, ?_⟩
  · intro msgs typ content hc
    constructor
    · simp [append_with_typ_meta, hc]
    · rw [msgsTagged_awtm_self]
      simp [hc]
  · intro msgs typ
    constructor
    · simp [append_with_typ_meta]
    · rw [msgsTagged_awtm_self]
      simp
  · intro research steps s t
    apply countTag_assembleSeq_le
    simp [SimpleState.reset, countTag, msgsTagged]

/-- Witness for C1 at concrete inputs: replacing the files tag in a
two-message transcript keeps the untagged message and ends with the single
fresh files message, and empty fresh content leaves no files message. -/
theorem replace_by_tag_injection_witness :
    ("new" ≠ ""
      ∧ msgsTagged "files"
          (append_with_typ_meta
            [Message.mk "user" "old" (some "files"), Message.mk "user" "hi" none]
            "files" "new")
        = [Message.mk "user" "new" (some "files")])
    ∧ msgsTagged "files"
        (append_with_typ_meta [Message.mk "user" "old" (some "files")] "files" "") = [] :=
  ⟨⟨by decide,
    (replace_by_tag_injection.1
      [Message.mk "user" "old" (some "files"), Message.mk "user" "hi" none]
      "files" "new" (by decide)).2⟩,
   (replace_by_tag_injection.2.1 [Message.mk "user" "old" (some "files")] "files").2⟩

/-- C2. Exactly-once system prompt: with a nonempty configured system
prompt, after a reset followed by any nonempty sequence of assembly calls
the transcript holds exactly one system-role message, namely the system
prompt, and no later operation removes it; moreover the once-only flag in
message_meta (not transcript scanning) prevents a second injection: as soon
as the flag is set, the candidate items of any assembly contain no system
item, whatever the transcript holds. -/
theorem exactly_once_system_prompt (research : String → String → Bool) (s : SimpleState)
    (hsp : s.system_prompt ≠ "") (first : TurnIn) (rest : List TurnIn) :
    filterRole "system" (assembleSeq research (first :: rest) s.reset).messages
        = [Message.mk "system" s.system_prompt none]
    ∧ (∀ (s' : SimpleState) (d : Disk) (ui : String), "system" ∈ s'.message_meta →
        ∀ it ∈ (s'.get_message_items d ui).1, it.1 ≠ "system") := by
  constructor
  · have h1 : SysInv s.system_prompt
        ((s.reset.assemble_prompt research first.agent first.disk first.input).1) := by
      apply sysInv_first_assemble
      · simp [SimpleState.reset]
      · rfl
      · rfl
      · exact hsp
    have h2 := sysInv_assembleSeq s.system_prompt research rest _ h1
    exact h2.2.1
  · exact fun s' d ui h => gmi_items_no_system s' d ui h

/-- Witness for C2: one assembly turn with the SP prompt yields exactly the
single system message. -/
theorem exactly_once_system_prompt_witness :
    filterRole "system"
        (assembleSeq exResearch [TurnIn.mk exAgentNone exDisk "hi"] exState.reset).messages
      = [Message.mk "system" "SP" none] :=
  (exactly_once_system_prompt exResearch exState (by decide)
    (TurnIn.mk exAgentNone exDisk "hi") []).1

/-- Fixture for the C3 counterexample: a state in mid-conversation whose
system flag is set, with no pending files, and whose transcript carries the
model prompt of model A while the active model has been switched to B. -/
def exStateC3 : SimpleState :=
  SimpleState.mk 0 "SP" exWs (ChatFiles.init exWs)
    [Message.mk "system" "SP" none, Message.mk "user" "hi" none,
      Message.mk "user" "PA" (some "model_prompt")]
    ["system"]

/-- Counterexample to C3 as stated: with the active model switched from A
to B, the post-response re-assembly with empty user input injects the fresh
model-B prompt into the transcript (new content), yet returns false, so
handle_response reports false and the turn loop does not run another
completion round. -/
theorem assembly_return_value_cex :
    (exStateC3.assemble_prompt exResearch exAgentB exDisk "").2 = false
    ∧ ((exStateC3.assemble_prompt exResearch exAgentB exDisk "").1).messages
        = [Message.mk "system" "SP" none, Message.mk "user" "hi" none,
            Message.mk "user" "PB" (some "model_prompt")]
    ∧ exStateC3.messages
        = [Message.mk "system" "SP" none, Message.mk "user" "hi" none,
            Message.mk "user" "PA" (some "model_prompt")]
    ∧ (exStateC3.handle_response exResearch exAgentB exDisk true).2 = false := by
  decide

/-- C3 (amended). The value returned by an assembly call is true iff the
candidate items list is nonempty, i.e. iff the system prompt is still due,
or files are pending, or the user input is nonempty; the model-specific
prompt step does not influence the return value, and handle_response
conjoins this value with the flag returned by the superclass handler after
re-assembling with empty input. -/
theorem assembly_return_value (research : String → String → Bool) (agent : AgentCfg)
    (d : Disk) (s : SimpleState) (ui : String) (continu : Bool) :
    ((s.assemble_prompt research agent d ui).2 = true
      ↔ (("system" ∉ s.message_meta ∧ s.system_prompt ≠ "")
          ∨ s.chat_files.have_pending = true ∨ ui ≠ ""))
    ∧ (s.handle_response research agent d continu).2
        = ((s.assemble_prompt research agent d "").2 && continu)
    ∧ (s.handle_response research agent d continu).1
        = (s.assemble_prompt research agent d "").1 := by
  refine ⟨?_, rfl, rfl⟩
  rw [assemble_snd, gmi_items_eq]
  by_cases h1 : "system" ∉ s.message_meta ∧ s.system_prompt ≠ "" <;>
    by_cases hp : s.chat_files.have_pending = true <;>
    by_cases h3 : ui ≠ "" <;>
    simp [h1, hp, h3]

/-- Witness for the amended C3 at a concrete input: a first turn with user
input hi returns true. -/
theorem assembly_return_value_witness :
    ((exState.reset).assemble_prompt exResearch exAgentNone exDisk "hi").2 = true :=
  (assembly_return_value exResearch exAgentNone exDisk exState.reset "hi" true).1.mpr
    (Or.inr (Or.inr (by decide)))

/-- C10. Reset frame: reset reinitializes exactly the transcript, the flag
map and both file lists, and leaves the workspace binding, the configured
system prompt, the agent reference and the registered candidate generator
untouched. -/
theorem reset_frame (s : SimpleState) :
    (s.reset).messages = []
    ∧ (s.reset).message_meta = []
    ∧ (s.reset).chat_files.chat_files = []
    ∧ (s.reset).chat_files.pending_files = []
    ∧ (s.reset).workspace = s.workspace
    ∧ (s.reset).system_prompt = s.system_prompt
    ∧ (s.reset).agentId = s.agentId
    ∧ (s.reset).chat_files.candidate_generator = s.chat_files.candidate_generator
    ∧ (s.reset).chat_files.workspace = s.chat_files.workspace :=
  ⟨rfl, rfl, rfl, rfl, rfl, rfl, rfl, rfl, rfl⟩

/-- Operations on a ChatFiles instance reachable through its public API:
add, remove, clear, clear_pending and read_files. -/
inductive FOp where
  | addOp : PyPath → FOp
  | removeOp : PyPath → FOp
  | clearOp : FOp
  | clearPendingOp : FOp
  | readAllOp : Disk → FOp

/-- Application of one operation. -/
def applyFOp (cf : ChatFiles) : FOp → ChatFiles
  | FOp.addOp p => cf.add p
  | FOp.removeOp p => cf.remove p
  | FOp.clearOp => cf.clear
  | FOp.clearPendingOp => cf.clear_pending
  | FOp.readAllOp d => (cf.read_files d).2.2

/-- Application of a sequence of operations. -/
def applyFOps (cf : ChatFiles) (ops : List FOp) : ChatFiles :=
  ops.foldl applyFOp cf

/-- Structural invariant of a ChatFiles instance: the pending list is a
subset of the committed list and neither list holds duplicates. -/
def CFInv (cf : ChatFiles) : Prop :=
  (∀ x ∈ cf.pending_files, x ∈ cf.chat_files)
    ∧ cf.chat_files.Nodup ∧ cf.pending_files.Nodup

theorem cfinv_add (cf : ChatFiles) (f : PyPath) (h : CFInv cf) :
    CFInv (cf.add f) ∧ f ∈ (cf.add f).chat_files ∧ f ∈ (cf.add f).pending_files := by
  obtain ⟨hsub, hnc, hnp⟩ := h
  by_cases hc : f ∈ cf.chat_files <;> by_cases hp : f ∈ cf.pending_files
  · have he : cf.add f = cf := by simp [ChatFiles.add, hc, hp]
    rw [he]
    exact ⟨⟨hsub, hnc, hnp⟩, hc, hp⟩
  · have he : cf.add f = { cf with pending_files := cf.pending_files ++ [f] } := by
      simp [ChatFiles.add, hc, hp]
    rw [he]
    refine ⟨⟨?_, hnc, ?_⟩, hc, by simp⟩
    · intro x hx
      rcases List.mem_append.mp hx with hx | hx
      · exact hsub x hx
      · simp only [List.mem_singleton] at hx
        exact hx ▸ hc
    · simp [List.nodup_append, hnp, hp]
  · exact absurd (hsub f hp) hc
  · have he : cf.add f =
        { cf with
          chat_files := cf.chat_files ++ [f]
          pending_files := cf.pending_files ++ [f] } := by
      simp [ChatFiles.add, hc, hp]
    rw [he]
    refine ⟨⟨?_, ?_, ?_⟩, by simp, by simp⟩
    · intro x hx
      rcases List.mem_append.mp hx with hx | hx
      · exact List.mem_append_left _ (hsub x hx)
      · exact List.mem_append_right _ hx
    · simp [List.nodup_append, hnc, hc]
    · simp [List.nodup_append, hnp, hp]

theorem cfinv_remove (cf : ChatFiles) (f : PyPath) (h : CFInv cf) :
    CFInv (cf.remove f) ∧ f ∉ (cf.remove f).chat_files ∧ f ∉ (cf.remove f).pending_files := by
  obtain ⟨hsub, hnc, hnp⟩ := h
  by_cases hc : f ∈ cf.chat_files
  · by_cases hp : f ∈ cf.pending_files
    · have he : cf.remove f =
          { cf with
            chat_files := cf.chat_files.erase f
            pending_files := cf.pending_files.erase f } := by
        simp [ChatFiles.remove, hc, hp]
      rw [he]
      refine ⟨⟨?_, hnc.erase f, hnp.erase f⟩, ?_, ?_⟩
      · intro x hx
        have hx2 := (hnp.mem_erase_iff).mp hx
        exact (hnc.mem_erase_iff).mpr ⟨hx2.1, hsub x hx2.2⟩
      · intro hx
        exact ((hnc.mem_erase_iff).mp hx).1 rfl
      · intro hx
        exact ((hnp.mem_erase_iff).mp hx).1 rfl
    · have he : cf.remove f = { cf with chat_files := cf.chat_files.erase f } := by
        simp [ChatFiles.remove, hc, hp]
      rw [he]
      refine ⟨⟨?_, hnc.erase f, hnp⟩, ?_, hp⟩
      · intro x hx
        have hxf : x ≠ f := fun he2 => hp (he2 ▸ hx)
        exact (hnc.mem_erase_iff).mpr ⟨hxf, hsub x hx⟩
      · intro hx
        exact ((hnc.mem_erase_iff).mp hx).1 rfl
  · have hp : f ∉ cf.pending_files := fun hx => hc (hsub f hx)
    have he : cf.remove f = cf := by simp [ChatFiles.remove, hc, hp]
    rw [he]
    exact ⟨⟨hsub, hnc, hnp⟩, hc, hp⟩

theorem cfinv_read_files (cf : ChatFiles) (d : Disk) (h : CFInv cf) :
    ((cf.read_files d).2.2).pending_files = []
      ∧ ((cf.read_files d).2.2).chat_files = cf.chat_files
      ∧ CFInv ((cf.read_files d).2.2) := by
  obtain ⟨hsub, hnc, hnp⟩ := h
  unfold ChatFiles.read_files
  split
  · rename_i hempty
    have hchat : cf.chat_files = [] := List.isEmpty_iff.mp hempty
    have hpend : cf.pending_files = [] := by
      apply List.eq_nil_iff_forall_not_mem.mpr
      intro x hx
      have := hsub x hx
      rw [hchat] at this
      exact List.not_mem_nil x this
    exact ⟨hpend, rfl, hsub, hnc, hnp⟩
  · exact ⟨rfl, rfl, by simp [ChatFiles.clear_pending], hnc, List.nodup_nil⟩

theorem cfinv_applyFOp (cf : ChatFiles) (op : FOp) (h : CFInv cf) :
    CFInv (applyFOp cf op) := by
  cases op with
  | addOp p => exact (cfinv_add cf p h).1
  | removeOp p => exact (cfinv_remove cf p h).1
  | clearOp => exact ⟨by simp [applyFOp, ChatFiles.clear], by simp [applyFOp, ChatFiles.clear],
      by simp [applyFOp, ChatFiles.clear]⟩
  | clearPendingOp => exact ⟨by simp [applyFOp, ChatFiles.clear_pending],
      by simpa [applyFOp, ChatFiles.clear_pending] using h.2.1,
      by simp [applyFOp, ChatFiles.clear_pending]⟩
  | readAllOp d => exact (cfinv_read_files cf d h).2.2

theorem cfinv_applyFOps (cf : ChatFiles) (ops : List FOp) (h : CFInv cf) :
    CFInv (applyFOps cf ops) := by
  induction ops generalizing cf with
  | nil => exact h
  | cons op rest ih => exact ih (applyFOp cf op) (cfinv_applyFOp cf op h)

/-- C4. Pending/committed invariant: over every sequence of add, remove,
clear, clear_pending and read operations from a fresh instance, the pending
list stays a subset of the committed list and both stay duplicate-free;
add inserts into both sets without duplicating, remove deletes from both,
clear empties both, clear_pending empties only the pending set, and a read
of all files empties the pending set and leaves the committed set intact. -/
theorem pending_committed_invariant :
    (∀ (ws : PyPath) (ops : List FOp), CFInv (applyFOps (ChatFiles.init ws) ops))
    ∧ (∀ (cf : ChatFiles) (f : PyPath), CFInv cf →
        CFInv (cf.add f) ∧ f ∈ (cf.add f).chat_files ∧ f ∈ (cf.add f).pending_files)
    ∧ (∀ (cf : ChatFiles) (f : PyPath), CFInv cf →
        CFInv (cf.remove f) ∧ f ∉ (cf.remove f).chat_files ∧ f ∉ (cf.remove f).pending_files)
    ∧ (∀ cf : ChatFiles, (cf.clear).chat_files = [] ∧ (cf.clear).pending_files = [])
    ∧ (∀ cf : ChatFiles, (cf.clear_pending).pending_files = []
        ∧ (cf.clear_pending).chat_files = cf.chat_files)
    ∧ (∀ (cf : ChatFiles) (d : Disk), CFInv cf →
        ((cf.read_files d).2.2).pending_files = []
          ∧ ((cf.read_files d).2.2).chat_files = cf.chat_files) := by
  refine ⟨?_, cfinv_add, cfinv_remove, ?_, ?_, ?_⟩
  · intro ws ops
    apply cfinv_applyFOps
    exact ⟨by simp [ChatFiles.init], by simp [ChatFiles.init], by simp [ChatFiles.init]⟩
  · intro cf
    exact ⟨rfl, rfl⟩
  · intro cf
    exact ⟨rfl, rfl⟩
  · intro cf d h
    exact ⟨(cfinv_read_files cf d h).1, (cfinv_read_files cf d h).2.1⟩

/-- Witness for C4 at concrete inputs: a fresh instance satisfies the
invariant, adding a path puts it in both lists, and removing it afterwards
takes it out of both. -/
theorem pending_committed_invariant_witness :
    (CFInv ((ChatFiles.init exWs).add (PyPath.mk false ["a"]))
      ∧ PyPath.mk false ["a"] ∈ ((ChatFiles.init exWs).add (PyPath.mk false ["a"])).chat_files
      ∧ PyPath.mk false ["a"] ∈ ((ChatFiles.init exWs).add (PyPath.mk false ["a"])).pending_files)
    ∧ PyPath.mk false ["a"]
        ∉ (((ChatFiles.init exWs).add (PyPath.mk false ["a"])).remove
            (PyPath.mk false ["a"])).chat_files := by
  have hinv : CFInv (ChatFiles.init exWs) :=
    ⟨by simp [ChatFiles.init], by simp [ChatFiles.init], by simp [ChatFiles.init]⟩
  have hadd := pending_committed_invariant.2.1 (ChatFiles.init exWs) (PyPath.mk false ["a"]) hinv
  have hrem := pending_committed_invariant.2.2.1 _ (PyPath.mk false ["a"]) hadd.1
  exact ⟨hadd, hrem.2.1⟩

/-- Example disk for read scenarios: workspace files f1 and f2 hold C1 and
C2 respectively. -/
def exDisk2 : Disk :=
  Disk.mk (PyPath.mk true [])
    (fun p => if p = PyPath.mk true ["ws", "f1"] then some "C1"
      else if p = PyPath.mk true ["ws", "f2"] then some "C2" else none)
    (fun _ => true)

/-- Example ChatFiles instance with f1 then f2 committed. -/
def exCf2 : ChatFiles :=
  ((ChatFiles.init exWs).add (PyPath.mk false ["f1"])).add (PyPath.mk false ["f2"])

/-- Statement-side description following the spec words for read_all: the
committed files present on disk, in committed (insertion) order, paired
with their contents. -/
def readEntries (d : Disk) (ws : PyPath) (l : List PyPath) : List (PyPath × String) :=
  l.filterMap (fun f => (d.readF (resolveRead ws f)).map (fun c => (f, c)))

theorem readFilesLoop_spec (d : Disk) (ws : PyPath) (l : List PyPath) :
    ∀ (t : String) (fp : List PyPath),
    readFilesLoop d ws l (t, fp)
      = ((readEntries d ws l).foldl (fun acc e => fileBlock e.1 e.2 ++ acc) t,
          fp ++ (readEntries d ws l).map Prod.fst) := by
  induction l with
  | nil =>
    intro t fp
    simp [readFilesLoop, readEntries]
  | cons f rest ih =>
    intro t fp
    cases hr : d.readF (resolveRead ws f) with
    | some c =>
      simp only [readFilesLoop, readEntries, List.filterMap_cons, hr, Option.map_some']
      rw [ih]
      simp [readEntries, List.append_assoc]
    | none =>
      simp only [readFilesLoop, readEntries, List.filterMap_cons, hr, Option.map_none']
      rw [ih]
      simp [readEntries]

/-- C5. Contract of read_files: it returns the concatenation of one block
per committed file readable on disk, with the most recently added file
earliest (the loop prepends, so the reversed committed order is
concatenated); the returned path list holds exactly the committed files
that could be read, in committed order; the committed set is unchanged and
the pending set is empty afterwards; and with an empty committed set it
returns the empty string and the empty list with no state change at all. -/
theorem read_all_contract (cf : ChatFiles) (d : Disk)
    (hsub : ∀ x ∈ cf.pending_files, x ∈ cf.chat_files) :
    (cf.read_files d).1
        = (readEntries d cf.workspace cf.chat_files).reverse.foldr
            (fun e acc => fileBlock e.1 e.2 ++ acc) ""
    ∧ (cf.read_files d).2.1 = (readEntries d cf.workspace cf.chat_files).map Prod.fst
    ∧ ((cf.read_files d).2.2).chat_files = cf.chat_files
    ∧ ((cf.read_files d).2.2).pending_files = []
    ∧ (cf.chat_files = [] →
        (cf.read_files d).1 = "" ∧ (cf.read_files d).2.1 = [] ∧ (cf.read_files d).2.2 = cf) := by
  have hfold : ∀ (es : List (PyPath × String)) (t : String),
      es.reverse.foldr (fun e acc => fileBlock e.1 e.2 ++ acc) t
        = es.foldl (fun acc e => fileBlock e.1 e.2 ++ acc) t := by
    intro es t
    rw [List.foldr_reverse]
  unfold ChatFiles.read_files
  split
  · rename_i hempty
    have hchat : cf.chat_files = [] := List.isEmpty_iff.mp hempty
    have hpend : cf.pending_files = [] := by
      apply List.eq_nil_iff_forall_not_mem.mpr
      intro x hx
      have hmem := hsub x hx
      rw [hchat] at hmem
      exact List.not_mem_nil x hmem
    refine ⟨?_, ?_, rfl, hpend, fun _ => ⟨rfl, rfl, rfl⟩⟩
    · rw [hchat, hfold]
      simp [readEntries]
    · rw [hchat]
      simp [readEntries]
  · rw [readFilesLoop_spec]
    refine ⟨?_, by simp, by simp [ChatFiles.clear_pending], by simp [ChatFiles.clear_pending], ?_⟩
    · rw [hfold]
    · intro hchat
      rename_i hne
      rw [hchat] at hne
      simp at hne

/-- Witness for C5 at concrete inputs: reading a two-file set yields the
newest file first and clears the pending list. -/
theorem read_all_contract_witness :
    (exCf2.read_files exDisk2).1 = "\n====FILE: f2====\nC2\n\n\n====FILE: f1====\nC1\n\n"
    ∧ ((exCf2.read_files exDisk2).2.2).pending_files = []
    ∧ ((exCf2.read_files exDisk2).2.2).chat_files = exCf2.chat_files := by
  have h := read_all_contract exCf2 exDisk2 (by decide)
  refine ⟨?_, h.2.2.2.1, h.2.2.1⟩
  rw [h.1]
  decide

theorem add_workspace (cf : ChatFiles) (f : PyPath) : (cf.add f).workspace = cf.workspace := by
  unfold ChatFiles.add
  dsimp only
  split <;> split <;> rfl

theorem mem_add_chat_self (cf : ChatFiles) (f : PyPath) : f ∈ (cf.add f).chat_files := by
  unfold ChatFiles.add
  by_cases hc : f ∈ cf.chat_files <;> by_cases hp : f ∈ cf.pending_files <;>
    simp [hc, hp]

theorem mem_add_pending_self (cf : ChatFiles) (f : PyPath) : f ∈ (cf.add f).pending_files := by
  unfold ChatFiles.add
  by_cases hc : f ∈ cf.chat_files <;> by_cases hp : f ∈ cf.pending_files <;>
    simp [hc, hp]

theorem mem_add_chat_mono (cf : ChatFiles) (f x : PyPath) (hx : x ∈ cf.chat_files) :
    x ∈ (cf.add f).chat_files := by
  unfold ChatFiles.add
  by_cases hc : f ∈ cf.chat_files <;> by_cases hp : f ∈ cf.pending_files <;>
    simp [hc, hp, hx]

theorem mem_add_pending_mono (cf : ChatFiles) (f x : PyPath) (hx : x ∈ cf.pending_files) :
    x ∈ (cf.add f).pending_files := by
  unfold ChatFiles.add
  by_cases hc : f ∈ cf.chat_files <;> by_cases hp : f ∈ cf.pending_files <;>
    simp [hc, hp, hx]

theorem add_by_names_fold (d : Disk) (paths : List PyPath) :
    ∀ (r : AddResult) (cf : ChatFiles),
      (paths.foldl (addByNamesStep d) (r, cf)).1.succeed
          = r.succeed ++ paths.filter (fun p => d.existsF (normalizeAt cf.workspace d.cwd p))
      ∧ (paths.foldl (addByNamesStep d) (r, cf)).1.not_exist
          = r.not_exist
            ++ paths.filter (fun p => !(d.existsF (normalizeAt cf.workspace d.cwd p)))
      ∧ (paths.foldl (addByNamesStep d) (r, cf)).2.workspace = cf.workspace
      ∧ (∀ x, x ∈ cf.chat_files → x ∈ (paths.foldl (addByNamesStep d) (r, cf)).2.chat_files)
      ∧ (∀ x, x ∈ cf.pending_files →
          x ∈ (paths.foldl (addByNamesStep d) (r, cf)).2.pending_files)
      ∧ (∀ p ∈ paths, d.existsF (normalizeAt cf.workspace d.cwd p) = true →
          normalizeAt cf.workspace d.cwd p
              ∈ (paths.foldl (addByNamesStep d) (r, cf)).2.chat_files
            ∧ normalizeAt cf.workspace d.cwd p
              ∈ (paths.foldl (addByNamesStep d) (r, cf)).2.pending_files) := by
  induction paths with
  | nil =>
    intro r cf
    refine ⟨by simp, by simp, rfl, fun x hx => hx, fun x hx => hx, ?_⟩
    intro p hp
    exact absurd hp (List.not_mem_nil p)
  | cons p rest ih =>
    intro r cf
    by_cases he : d.existsF (normalizeAt cf.workspace d.cwd p) = true
    · have hstep : addByNamesStep d (r, cf) p =
          (AddResult.mk (r.succeed ++ [p]) r.not_exist,
            cf.add (normalizeAt cf.workspace d.cwd p)) := by
        simp [addByNamesStep, ChatFiles.normalize, he]
      have hws : (cf.add (normalizeAt cf.workspace d.cwd p)).workspace = cf.workspace :=
        add_workspace cf _
      obtain ⟨ih1, ih2, ih3, ih4, ih5, ih6⟩ :=
        ih (AddResult.mk (r.succeed ++ [p]) r.not_exist)
          (cf.add (normalizeAt cf.workspace d.cwd p))
      rw [hws] at ih1 ih2 ih3 ih6
      refine ⟨?_, ?_, ?_, ?_, ?_, ?_⟩
      · rw [List.foldl_cons, hstep, ih1, List.filter_cons, if_pos he]
        simp [List.append_assoc]
      · rw [List.foldl_cons, hstep, ih2, List.filter_cons]
        simp [he]
      · rw [List.foldl_cons, hstep, ih3]
      · intro x hx
        rw [List.foldl_cons, hstep]
        exact ih4 x (mem_add_chat_mono cf _ x hx)
      · intro x hx
        rw [List.foldl_cons, hstep]
        exact ih5 x (mem_add_pending_mono cf _ x hx)
      · intro q hq hqe
        rw [List.foldl_cons, hstep]
        rcases List.mem_cons.mp hq with hq | hq
        · subst hq
          exact ⟨ih4 _ (mem_add_chat_self cf _), ih5 _ (mem_add_pending_self cf _)⟩
        · exact ih6 q hq hqe
    · have hstep : addByNamesStep d (r, cf) p =
          (AddResult.mk r.succeed (r.not_exist ++ [p]), cf) := by
        simp [addByNamesStep, ChatFiles.normalize, he]
      obtain ⟨ih1, ih2, ih3, ih4, ih5, ih6⟩ :=
        ih (AddResult.mk r.succeed (r.not_exist ++ [p])) cf
      refine ⟨?_, ?_, ?_, ?_, ?_, ?_⟩
      · rw [List.foldl_cons, hstep, ih1, List.filter_cons, if_neg he]
      · rw [List.foldl_cons, hstep, ih2, List.filter_cons]
        simp [he, List.append_assoc]
      · rw [List.foldl_cons, hstep, ih3]
      · intro x hx
        rw [List.foldl_cons, hstep]
        exact ih4 x hx
      · intro x hx
        rw [List.foldl_cons, hstep]
        exact ih5 x hx
      · intro q hq hqe
        rw [List.foldl_cons, hstep]
        rcases List.mem_cons.mp hq with hq | hq
        · subst hq
          exact absurd hqe he
        · exact ih6 q hq hqe

/-- C6. Batch add with normalization: a relative path resolved against an
absolute workspace root is stored root-relative (the join is lexically under
the root, so the root components are stripped back off); an absolute path
under the root is stored root-relative, otherwise kept absolute; each input
path whose normalized form does not exist on disk is classified not-exist
and skipped, each existing one is classified succeed and added to both the
committed and pending sets; and in Scenario A, adding notes.txt (present)
and missing.txt (absent) reports succeed notes.txt and not-exist
missing.txt, with notes.txt in both sets. -/
theorem add_many_normalization :
    (∀ ws cwd p : PyPath, ws.absolute = true → p.absolute = false →
        normalizeAt ws cwd p = p)
    ∧ (∀ ws cwd p : PyPath, p.absolute = true → p.isRelativeTo ws = true →
        normalizeAt ws cwd p = p.relativeTo ws ∧ (p.relativeTo ws).absolute = false)
    ∧ (∀ ws cwd p : PyPath, p.absolute = true → p.isRelativeTo ws = false →
        normalizeAt ws cwd p = p)
    ∧ (∀ (cf : ChatFiles) (d : Disk) (paths : List PyPath),
        (cf.add_by_names d paths).1.succeed
            = paths.filter (fun p => d.existsF (cf.normalize d.cwd p))
          ∧ (cf.add_by_names d paths).1.not_exist
            = paths.filter (fun p => !(d.existsF (cf.normalize d.cwd p)))
          ∧ ∀ p ∈ paths, d.existsF (cf.normalize d.cwd p) = true →
              cf.normalize d.cwd p ∈ ((cf.add_by_names d paths).2).chat_files
                ∧ cf.normalize d.cwd p ∈ ((cf.add_by_names d paths).2).pending_files)
    ∧ (((ChatFiles.init exWs).add_by_names exDisk
            [parsePath "notes.txt", parsePath "missing.txt"]).1
          = AddResult.mk [parsePath "notes.txt"] [parsePath "missing.txt"]
        ∧ ((ChatFiles.init exWs).add_by_names exDisk
            [parsePath "notes.txt", parsePath "missing.txt"]).2.chat_files
          = [parsePath "notes.txt"]
        ∧ ((ChatFiles.init exWs).add_by_names exDisk
            [parsePath "notes.txt", parsePath "missing.txt"]).2.pending_files
          = [parsePath "notes.txt"]) := by
  refine ⟨?_, ?_, ?_, ?_, by decide, by decide, by decide⟩
  · intro ws cwd p hws hp
    unfold normalizeAt
    cases p with
    | mk pa pc =>
      cases ws with
      | mk wsa wsc =>
        simp only at hws hp
        subst hws
        subst hp
        simp [PyPath.join, PyPath.pyAbsolute, PyPath.isRelativeTo, PyPath.relativeTo,
          List.isPrefixOf_iff_prefix, List.drop_left]
  · intro ws cwd p hp hrel
    refine ⟨?_, rfl⟩
    simp [normalizeAt, hp, hrel]
  · intro ws cwd p hp hrel
    simp [normalizeAt, hp, hrel]
  · intro cf d paths
    have h := add_by_names_fold d paths (AddResult.mk [] []) cf
    unfold ChatFiles.add_by_names
    refine ⟨?_, ?_, ?_⟩
    · rw [h.1]
      simp [ChatFiles.normalize]
    · rw [h.2.1]
      simp [ChatFiles.normalize]
    · intro p hp hpe
      exact h.2.2.2.2.2 p hp (by simpa [ChatFiles.normalize] using hpe)

/-- Witness for C6 at concrete inputs: the three normalization shapes at
explicit paths. -/
theorem add_many_normalization_witness :
    normalizeAt exWs (PyPath.mk true []) (PyPath.mk false ["a"]) = PyPath.mk false ["a"]
    ∧ normalizeAt exWs (PyPath.mk true []) (PyPath.mk true ["ws", "x"])
        = (PyPath.mk true ["ws", "x"]).relativeTo exWs
    ∧ normalizeAt exWs (PyPath.mk true []) (PyPath.mk true ["other", "x"])
        = PyPath.mk true ["other", "x"] :=
  ⟨add_many_normalization.1 exWs (PyPath.mk true []) (PyPath.mk false ["a"]) rfl rfl,
    (add_many_normalization.2.1 exWs (PyPath.mk true []) (PyPath.mk true ["ws", "x"])
      rfl (by decide)).1,
    add_many_normalization.2.2.1 exWs (PyPath.mk true []) (PyPath.mk true ["other", "x"])
      rfl (by decide)⟩

theorem awtm_eq (msgs : List Message) (typ content : String) (hc : content ≠ "") :
    append_with_typ_meta msgs typ content
      = msgs.filter (fun m => m.tag != some typ)
        ++ [Message.mk "user" content (some typ)] := by
  simp [append_with_typ_meta, hc]

theorem find?_first {α : Type} (p : α → Bool) (l : List α) :
    ∀ (i : Nat) (mp : α), l.get? i = some mp → p mp = true →
      (∀ j, j < i → ∀ q, l.get? j = some q → p q = false) →
      l.find? p = some mp := by
  induction l with
  | nil =>
    intro i mp hget
    simp at hget
  | cons a rest ih =>
    intro i mp hget hp hbefore
    cases i with
    | zero =>
      simp only [List.get?] at hget
      injection hget with hget
      subst hget
      simp [List.find?, hp]
    | succ n =>
      have ha : p a = false := hbefore 0 (Nat.succ_pos n) a rfl
      simp only [List.find?_cons, ha]
      exact ih n mp hget hp
        (fun j hj q hq => hbefore (j + 1) (Nat.succ_lt_succ hj) q hq)

/-- C7. Model-specific prompt selection: when the i-th configured
(prompt, pattern) pair is the first whose pattern matches the active model
identifier under the abstract search predicate, assembly injects exactly
that prompt under the model_prompt tag via replace-by-tag, leaving it the
sole model_prompt message and the last message of the transcript; a
transcript with at most one live model_prompt message keeps at most one
after any assembly; and in the concrete switch scenario, assembling under
model A leaves prompt PA live and re-assembling after switching to model B
leaves exactly prompt PB live, with the old one gone. -/
theorem model_prompt_selection :
    (∀ (research : String → String → Bool) (agent : AgentCfg) (d : Disk)
        (s : SimpleState) (ui : String) (i : Nat) (mp : ModelPrompt),
      agent.model_prompt.get? i = some mp →
      research mp.pattern agent.model_ref = true →
      (∀ j, j < i → ∀ q, agent.model_prompt.get? j = some q →
        research q.pattern agent.model_ref = false) →
      mp.prompt ≠ "" →
      msgsTagged "model_prompt" ((s.assemble_prompt research agent d ui).1).messages
          = [Message.mk "user" mp.prompt (some "model_prompt")]
        ∧ ((s.assemble_prompt research agent d ui).1).messages.getLast?
          = some (Message.mk "user" mp.prompt (some "model_prompt")))
    ∧ (∀ (research : String → String → Bool) (agent : AgentCfg) (d : Disk)
        (s : SimpleState) (ui : String),
      countTag "model_prompt" s.messages ≤ 1 →
      countTag "model_prompt" ((s.assemble_prompt research agent d ui).1).messages ≤ 1)
    ∧ (msgsTagged "model_prompt"
          (((exState.reset).assemble_prompt exResearch exAgentA exDisk "hi").1).messages
        = [Message.mk "user" "PA" (some "model_prompt")]
      ∧ msgsTagged "model_prompt"
          (((((exState.reset).assemble_prompt exResearch exAgentA exDisk "hi").1).assemble_prompt
              exResearch exAgentB exDisk "more").1).messages
        = [Message.mk "user" "PB" (some "model_prompt")]) := by
  refine ⟨?_, ?_, by decide, by decide⟩
  · intro research agent d s ui i mp hget hp hbefore hne
    have hfind : agent.model_prompt.find? (fun q => research q.pattern agent.model_ref)
        = some mp :=
      find?_first _ _ i mp hget hp hbefore
    have hmsg := assemble_fst_messages s research agent d ui
    rw [hfind] at hmsg
    dsimp only at hmsg
    constructor
    · rw [hmsg]
      rw [msgsTagged_awtm_self]
      simp [hne]
    · rw [hmsg, awtm_eq _ _ _ hne]
      exact List.getLast?_concat _
  · intro research agent d s ui h
    have := countTag_assemble_le s research agent d ui "model_prompt"
    omega

/-- Witness for C7 at concrete inputs: in the fixture with active model B,
the second configured pair is the first match, and its prompt ends up as
the sole live model_prompt message at the end of the transcript; the
at-most-one bound holds for the concrete mid-conversation state. -/
theorem model_prompt_selection_witness :
    msgsTagged "model_prompt"
        ((exStateC3.assemble_prompt exResearch exAgentB exDisk "").1).messages
      = [Message.mk "user" "PB" (some "model_prompt")]
    ∧ countTag "model_prompt"
        ((exStateC3.assemble_prompt exResearch exAgentB exDisk "").1).messages ≤ 1 := by
  constructor
  · exact (model_prompt_selection.1 exResearch exAgentB exDisk exStateC3 "" 1
      (ModelPrompt.mk "PB" "B") rfl (by decide)
      (fun j hj q hq => by
        have hj0 : j = 0 := Nat.lt_one_iff.mp hj
        subst hj0
        simp only [exAgentB, List.get?] at hq
        injection hq with hq
        subst hq
        decide)
      (by decide)).1
  · exact model_prompt_selection.2.1 exResearch exAgentB exDisk exStateC3 "" (by decide)

/-- C8 (code bug). Evaluation of the add/drop handler at the failing
inputs: the drop branch always raises TypeError because the source awaits
the value of the synchronous ChatFiles.remove call, and a missing argument
raises AttributeError because parse_cmdline hands the handler None and the
source calls arg.split on it; the add branch with an argument string, by
contrast, completes normally and reports the missing path. -/
theorem file_command_faults :
    fileCommandExecute (ChatFiles.init exWs) exDisk "drop" (some "notes.txt")
        = Except.error (PyErr.typeError "object NoneType can not be used in await expression")
    ∧ fileCommandExecute (ChatFiles.init exWs) exDisk "add" none
        = Except.error (PyErr.attributeError "NoneType object has no attribute split")
    ∧ fileCommandExecute (ChatFiles.init exWs) exDisk "add" (some "notes.txt missing.txt")
        = Except.ok
            ((((ChatFiles.init exWs).add_by_names exDisk
                [parsePath "notes.txt", parsePath "missing.txt"]).2),
              ["missing.txt does not exist, ignoring."]) :=
  ⟨rfl, rfl, rfl⟩

/-- Stand-in for json.loads on the inputs exercised by the C9 evaluation:
the bare word echo is not valid JSON (json.loads raises there), and the
empty object literal parses to the empty object. -/
def exJsonLoads : String → Option Json :=
  fun s => if s = "\x7b\x7d" then some (Json.obj []) else none

/-- C9 (code bug). Evaluation of the invoke-tool handler: with a tool name
followed by a JSON object argument, the source feeds parts[0] (the tool
name) instead of parts[1] (the JSON text) to json.loads, so the handler
reports invalid JSON and never builds a tool call; with no JSON argument
the empty-object default path works and forwards the synthetic record with
the placeholder identifier. -/
theorem invoke_tool_wrong_part :
    invokeToolExecute exJsonLoads (some "echo \x7b\"a\": 1\x7d")
        = Except.ok InvokeResult.invalidJson
    ∧ invokeToolExecute exJsonLoads (some "echo")
        = Except.ok (InvokeResult.invoked
            (ToolCall.mk "cmd_echo" "function" "echo" (Json.obj []))) :=
  ⟨rfl, rfl⟩

end Aroxis
